import Mathlib

/-!
Verification of the duplicate-detection and safe-reconciliation engine of the
video-development repository, as implemented by `find_and_delete_duplicates.py`
(reconciliation / deletion mode), `scan_drive_duplicates.py` (report mode) and
the confirmation gate of `safe_delete_originals.py`.

Modelling conventions:
* Paths are lists of path components (so `os.path.join root filename` becomes
  list append, and the string test `root.startswith(ARCHIVE_DIR)` on walk roots
  becomes the component-list `isPrefixOf` test).
* The filesystem is a static snapshot: a list of regular files (each with the
  size reported by `os.stat`/`os.path.getsize`, `none` when stat raises, and
  the byte stream returned by open+read, `none` when the read raises) together
  with the list of existing directories.
* `hashlib.md5` is modelled as an injective digest: the digest of a byte
  sequence is the byte sequence itself, so equality of modelled digests holds
  exactly when the hashed byte streams are equal (hash collisions idealised
  away).  What the embedding tracks faithfully is which bytes are fed to
  the hasher (full stream vs head + tail + printed size) and when hashing runs.
* `os.remove` succeeds exactly when the target path exists in the snapshot and
  raises (a caught `IOError`) otherwise; the per-item event trace records each
  remove call, each append to the deletions log, and each error message sent to
  the progress log, in execution order.
-/

namespace VideoDev

/-- One regular file of the scanned volume: its path (as components from the
filesystem root), the size reported by `os.stat` (`none` when stat fails) and
the bytes returned by opening and reading it (`none` when the read fails). -/
structure FSFile where
  path : List String
  stat : Option Nat
  content : Option (List Nat)
deriving DecidableEq

/-- A static filesystem snapshot: regular files plus existing directories. -/
structure FS where
  files : List FSFile
  dirs : List (List String)
deriving DecidableEq

/-- `os.stat(p).st_size` / `os.path.getsize(p)`: size of the file at `p`. -/
def statOf (fs : FS) (p : List String) : Option Nat :=
  match fs.files.find? (fun f => f.path = p) with
  | some f => f.stat
  | none => none

/-- `open(p,'rb').read()`: the byte stream of the file at `p`. -/
def readContent (fs : FS) (p : List String) : Option (List Nat) :=
  match fs.files.find? (fun f => f.path = p) with
  | some f => f.content
  | none => none

/-- `os.path.exists p`, for the paths the scripts test (directories). -/
def pathExists (fs : FS) (p : List String) : Bool :=
  fs.dirs.any (fun d => d = p) || fs.files.any (fun f => f.path = p)

/-- `name.startswith "."`: the reserved marker for hidden entries. -/
def hiddenName (s : String) : Bool :=
  s.toList.take 1 = ['.']

/-- Which files `os.walk dir` yields with the scripts' pruning applied: the
path extends `dir` and no component below `dir` (intermediate directory or the
filename itself) is hidden.  (`scan_drive_duplicates.py` additionally prunes
`.Spotlight-V100`, `.fseventsd` and `.Trashes`, all of which are hidden names
already.) -/
def walkVisible (dir : List String) (p : List String) : Bool :=
  dir.isPrefixOf p && decide (dir.length < p.length) &&
    (p.drop dir.length).all (fun c => !hiddenName c)

/-- `PEGASUS_ROOT = "/Volumes/Promise Pegasus"`. -/
def PEGASUS_ROOT : List String := ["Volumes", "Promise Pegasus"]

/-- `ARCHIVE_DIR = "/Volumes/Promise Pegasus/2012 Laguna FergiDotCom Archive"`:
the protected scope files are deleted from. -/
def ARCHIVE_DIR : List String :=
  ["Volumes", "Promise Pegasus", "2012 Laguna FergiDotCom Archive"]

/-- `hashlib.md5`, modelled as an injective digest of the hashed bytes. -/
def md5Digest (bs : List Nat) : List Nat := bs

/-- `os.path.basename`: the filename component of a path. -/
def fileName (p : List String) : String := p.getLastD ""

/-- Insertion-ordered grouping dictionary, as built by the scripts'
`dict` / `defaultdict(list)` with `append`: adding a value under a key either
appends it to the existing entry or adds a fresh entry at the end. -/
def addToIndex {κ ν : Type} [DecidableEq κ]
    (idx : List (κ × List ν)) (key : κ) (v : ν) : List (κ × List ν) :=
  if idx.any (fun e => e.1 = key) then
    idx.map (fun e => if e.1 = key then (e.1, e.2 ++ [v]) else e)
  else idx ++ [(key, [v])]

/-- Dictionary lookup (`idx[key]`, `key in idx`). -/
def lookupIndex {κ ν : Type} [DecidableEq κ]
    (idx : List (κ × List ν)) (key : κ) : Option (List ν) :=
  match idx.find? (fun e => decide (e.1 = key)) with
  | some e => some e.2
  | none => none

section FindAndDeleteDuplicates

/-- `compute_md5` of `find_and_delete_duplicates.py`: MD5 of the entire file
read in chunks; `None` when opening/reading raises `IOError`/`PermissionError`
(the caller logs the failure to the progress log). -/
def compute_md5 (fs : FS) (p : List String) : Option (List Nat) :=
  match readContent fs p with
  | some bs => some (md5Digest bs)
  | none => none

/-- The `{path, size, name}` record of `get_file_info` (the name is recoverable
as `fileName path`). -/
structure FileInfo where
  path : List String
  size : Nat
deriving DecidableEq

/-- `get_file_info`: stat the file, `None` on failure. -/
def get_file_info (fs : FS) (p : List String) : Option FileInfo :=
  match statOf fs p with
  | some n => some ⟨p, n⟩
  | none => none

/-- `build_archive_index`: walk `ARCHIVE_DIR` (hidden entries skipped), stat
each file, and group the resulting records by filename. -/
def build_archive_index (fs : FS) : List (String × List FileInfo) :=
  (fs.files.filter (fun f => walkVisible ARCHIVE_DIR f.path)).foldl
    (fun idx f =>
      match get_file_info fs f.path with
      | some info => addToIndex idx (fileName f.path) info
      | none => idx) []

/-- The walk of `find_external_matches`: files under `PEGASUS_ROOT` whose
containing directory (the walk `root`) does not extend `ARCHIVE_DIR` — the
`root.startswith(ARCHIVE_DIR)` guard skips every root inside the archive. -/
def externalWalk (p : List String) : Bool :=
  walkVisible PEGASUS_ROOT p && !(ARCHIVE_DIR.isPrefixOf p.dropLast)

/-- `find_external_matches`: walk the volume outside the archive and index, by
filename, every file whose name occurs in the archive index. -/
def find_external_matches (fs : FS) (archIdx : List (String × List FileInfo)) :
    List (String × List FileInfo) :=
  (fs.files.filter (fun f => externalWalk f.path)).foldl
    (fun idx f =>
      if archIdx.any (fun e => e.1 = fileName f.path) then
        match get_file_info fs f.path with
        | some info => addToIndex idx (fileName f.path) info
        | none => idx
      else idx) []

/-- One confirmed duplicate, as appended to `duplicates` by `find_duplicates`:
`(archive_path, external_path, size, md5)`. -/
structure DupPair where
  src : List String
  keeper : List String
  size : Nat
  md5 : List Nat
deriving DecidableEq

/-- The inner loop of `find_duplicates` over the size-matching externals:
returns the first external whose MD5 is computed and equals the archive digest
(the `break`), together with the externals whose read failed on the way (each
logged as an error by `compute_md5`). -/
def scanExternals (fs : FS) (am : List Nat) :
    List FileInfo → Option FileInfo × List (List String)
  | [] => (none, [])
  | e :: rest =>
    match compute_md5 fs e.path with
    | none =>
      let r := scanExternals fs am rest
      (r.1, e.path :: r.2)
    | some em =>
      if em = am then (some e, []) else scanExternals fs am rest

/-- The body of `find_duplicates` for one archive record: filter the externals
by exact size, then (only when some size matches) hash the archive file and
search the size matches for an equal digest.  Returns the confirmed pair (if
any) and the paths whose read failed. -/
def processArchiveInfo (fs : FS) (extList : List FileInfo) (a : FileInfo) :
    List DupPair × List (List String) :=
  let sizeMatches := extList.filter (fun e => decide (e.size = a.size))
  if sizeMatches.isEmpty then ([], [])
  else
    match compute_md5 fs a.path with
    | none => ([], [a.path])
    | some am =>
      let r := scanExternals fs am sizeMatches
      match r.1 with
      | some e => ([⟨a.path, e.path, a.size, am⟩], r.2)
      | none => ([], r.2)

/-- `find_duplicates`: for every archive filename that also occurs outside the
archive, confirm duplicates by equal name, equal size and equal full-content
MD5 of both files.  Also returns, in order, the paths whose fingerprint read
failed (these are reported to the progress log, not to the deletion log). -/
def find_duplicates (fs : FS) (archIdx extIdx : List (String × List FileInfo)) :
    List DupPair × List (List String) :=
  archIdx.foldl
    (fun acc entry =>
      match lookupIndex extIdx entry.1 with
      | none => acc
      | some extList =>
        entry.2.foldl
          (fun acc2 a =>
            let r := processArchiveInfo fs extList a
            (acc2.1 ++ r.1, acc2.2 ++ r.2)) acc)
    ([], [])

/-- One record of the deletions log, as produced by `log_deletion`
(`"DELETED"` vs `"WOULD DELETE (dry-run)"` is the `deleted` flag; the wall
clock timestamp carries no information in a static model and is omitted). -/
structure DeletionRecord where
  deleted : Bool
  archive_path : List String
  kept_at : List String
  size : Nat
  md5 : List Nat
deriving DecidableEq

/-- `log_deletion`: build the record appended to the deletions log. -/
def log_deletion (src keep : List String) (size : Nat) (md5 : List Nat)
    (deleted : Bool) : DeletionRecord :=
  ⟨deleted, src, keep, size, md5⟩

/-- The observable per-file actions of `delete_duplicates`, in execution
order: an `os.remove` call, an append to the deletions log, an error message
sent to the progress log. -/
inductive Event where
  | removeCall (p : List String)
  | logAppend (r : DeletionRecord)
  | progressError (p : List String)
deriving DecidableEq

/-- Whether `os.remove p` would succeed on this snapshot. -/
def fileOnDisk (files : List FSFile) (p : List String) : Bool :=
  files.any (fun f => f.path = p)

/-- The filesystem after a successful `os.remove p`. -/
def removeFile (files : List FSFile) (p : List String) : List FSFile :=
  files.filter (fun f => !decide (f.path = p))

/-- The state threaded through the loop of `delete_duplicates`. -/
structure DelOut where
  files : List FSFile
  deletionLog : List DeletionRecord
  total_freed : Nat
  trace : List Event
deriving DecidableEq

/-- One iteration of the loop of `delete_duplicates`: in live mode
`os.remove` runs first; only if it succeeds is `log_deletion` called and the
record appended (a raising remove is caught and reported to the progress log
only).  In dry-run mode no remove is attempted and the record is logged
unconditionally with the `WOULD DELETE` flag. -/
def deleteStep (dryRun : Bool) (st : DelOut) (d : DupPair) : DelOut :=
  if dryRun then
    let r := log_deletion d.src d.keeper d.size d.md5 false
    { st with deletionLog := st.deletionLog ++ [r],
              total_freed := st.total_freed + d.size,
              trace := st.trace ++ [Event.logAppend r] }
  else if fileOnDisk st.files d.src then
    let r := log_deletion d.src d.keeper d.size d.md5 true
    { files := removeFile st.files d.src,
      deletionLog := st.deletionLog ++ [r],
      total_freed := st.total_freed + d.size,
      trace := st.trace ++ [Event.removeCall d.src, Event.logAppend r] }
  else
    { st with trace := st.trace ++ [Event.removeCall d.src,
                                    Event.progressError d.src] }

/-- `delete_duplicates`: process the confirmed pairs in order, starting from
the run's filesystem snapshot and an empty deletions log (the log files of a
run are fresh, named after `RUN_TIMESTAMP`). -/
def delete_duplicates (dryRun : Bool) (files : List FSFile)
    (dups : List DupPair) : DelOut :=
  dups.foldl (deleteStep dryRun) ⟨files, [], 0, []⟩

/-- `DRY_RUN = "--dry-run" in sys.argv`. -/
def DRY_RUN (argv : List String) : Bool := argv.contains "--dry-run"

/-- The per-run deletions-log filename: `f"{RUN_TIMESTAMP}_deletions.log"`
inside `LOG_DIR` — a fresh file for every run timestamp. -/
def deletionLogName (runTimestamp : String) : String :=
  runTimestamp ++ "_deletions.log"

/-- The outcome of one run of `find_and_delete_duplicates.py`. -/
structure ReconcileOut where
  aborted : Option String
  dups : List DupPair
  readErrors : List (List String)
  finalFiles : List FSFile
  deletionLog : List DeletionRecord
  trace : List Event
deriving DecidableEq

/-- Steps 1–4 of `main` of `find_and_delete_duplicates.py`: index the archive,
find external matches, confirm duplicates by full checksum, and delete the
confirmed archive copies. -/
def reconcileCore (argv : List String) (fs : FS) : ReconcileOut :=
  let archIdx := build_archive_index fs
  let extIdx := find_external_matches fs archIdx
  let fd := find_duplicates fs archIdx extIdx
  let del := delete_duplicates (DRY_RUN argv) fs.files fd.1
  ⟨none, fd.1, fd.2, del.files, del.deletionLog, del.trace⟩

/-- `main` of `find_and_delete_duplicates.py`: verify that the volume root and
the archive directory exist (aborting — `sys.exit(1)` — before any indexing,
hashing or deciding otherwise), then run the pipeline. -/
def reconcileRun (argv : List String) (fs : FS) : ReconcileOut :=
  if !pathExists fs PEGASUS_ROOT then
    ⟨some "ERROR: Pegasus drive not found", [], [], fs.files, [], []⟩
  else if !pathExists fs ARCHIVE_DIR then
    ⟨some "ERROR: Archive directory not found", [], [], fs.files, [], []⟩
  else reconcileCore argv fs

end FindAndDeleteDuplicates

section SafeDeleteOriginals

/-- How `main` of `safe_delete_originals.py` resolves its run mode before any
file is processed. -/
inductive GateResult where
  | abortNoMode
  | abortNotConfirmed
  | proceedDry
  | proceedLive
deriving DecidableEq

/-- The mode gate of `safe_delete_originals.py`: a run with neither `--dry-run`
nor `--delete` exits with an error; `--delete` without `--dry-run` prompts and
proceeds only when the operator types exactly `DELETE`; otherwise the run is a
dry run. -/
def safeDeleteGate (dryRun del : Bool) (confirm : String) : GateResult :=
  if !dryRun && !del then GateResult.abortNoMode
  else if del && !dryRun then
    if confirm = "DELETE" then GateResult.proceedLive
    else GateResult.abortNotConfirmed
  else GateResult.proceedDry

end SafeDeleteOriginals

section ScanDriveDuplicates

/-- `MIN_SIZE = 1024`: files smaller than 1 KB are not indexed. -/
def MIN_SIZE : Nat := 1024

/-- One megabyte, the head/tail window of the quick hash. -/
def MB : Nat := 1024 * 1024

/-- `str(file_size).encode()`: the decimal digits of the size, as bytes. -/
def sizeDigits (n : Nat) : List Nat := (toString n).toList.map Char.toNat

/-- `get_full_hash` (and the `quick=False` branch of `get_file_hash`): MD5 of
the complete byte stream, `None` when the read raises. -/
def get_full_hash (fs : FS) (p : List String) : Option (List Nat) :=
  match readContent fs p with
  | some bs => some (md5Digest bs)
  | none => none

/-- `get_file_hash`: for `quick=True` and a stat size above 2 MB, MD5 of the
first megabyte, the last megabyte and the printed file size (the
`f.seek(-1024*1024, 2)` raises, yielding `None`, when fewer than a megabyte of
bytes is readable); otherwise MD5 of the whole stream.  `None` whenever stat or
read raises. -/
def get_file_hash (fs : FS) (p : List String) (quick : Bool) :
    Option (List Nat) :=
  match statOf fs p with
  | none => none
  | some sz =>
    if quick ∧ 2 * MB < sz then
      match readContent fs p with
      | none => none
      | some bs =>
        if bs.length < MB then none
        else some (md5Digest
          (bs.take MB ++ bs.drop (bs.length - MB) ++ sizeDigits sz))
    else
      match readContent fs p with
      | none => none
      | some bs => some (md5Digest bs)

/-- The state of Phase 1 of `scan_drive_duplicates.py`: the size index, the
count of indexed files, the `errors` counter (incremented exactly when
`os.path.getsize` raises) and the running total size. -/
structure SizeIndexOut where
  index : List (Nat × List (List String))
  indexed : Nat
  errors : Nat
  totalSize : Nat
deriving DecidableEq

/-- One iteration of Phase 1: stat the file (a raising stat counts as an
error), and index it by exact size when it is at least `MIN_SIZE` bytes. -/
def sizeIndexStep (fs : FS) (st : SizeIndexOut) (f : FSFile) : SizeIndexOut :=
  match statOf fs f.path with
  | none => { st with errors := st.errors + 1 }
  | some sz =>
    if MIN_SIZE ≤ sz then
      { st with index := addToIndex st.index sz f.path,
                indexed := st.indexed + 1,
                totalSize := st.totalSize + sz }
    else st

/-- Phase 1: walk the volume (hidden entries skipped), stat every file, count
stat failures as errors, and index files of at least `MIN_SIZE` bytes by exact
size. -/
def buildSizeIndex (fs : FS) : SizeIndexOut :=
  (fs.files.filter (fun f => walkVisible PEGASUS_ROOT f.path)).foldl
    (sizeIndexStep fs) ⟨[], 0, 0, 0⟩

/-- A duplicate cluster, as appended to `duplicate_clusters`. -/
structure Cluster where
  hash : List Nat
  size : Nat
  paths : List (List String)
  count : Nat
  wasted : Nat
deriving DecidableEq

/-- The cluster dictionary literal of Phase 2: `count = len(paths)` and
`wasted = size * (count - 1)`. -/
def mkCluster (h : List Nat) (size : Nat) (ps : List (List String)) : Cluster :=
  ⟨h, size, ps, ps.length, size * (ps.length - 1)⟩

/-- One step of the hash-grouping dictionaries of Phase 2: group a path under
its fingerprint, silently skipping it when the fingerprint comes back
`None`. -/
def hashGroupStep (hashOf : List String → Option (List Nat))
    (g : List (List Nat × List (List String))) (p : List String) :
    List (List Nat × List (List String)) :=
  match hashOf p with
  | some h => addToIndex g h p
  | none => g

/-- The hash-grouping dictionaries of Phase 2 (`hash_groups`,
`full_hash_groups`): group the paths by the given fingerprint, silently
skipping paths whose fingerprint comes back `None`. -/
def groupByHash (hashOf : List String → Option (List Nat))
    (paths : List (List String)) : List (List Nat × List (List String)) :=
  paths.foldl (hashGroupStep hashOf) []

/-- The body of Phase 2 for one size bucket: group by quick hash; each quick
group of two or more either gets every member re-hashed with the full
fingerprint when the size exceeds 10 MB (clusters formed per full hash, again
requiring two or more members), or is accepted as a cluster on the quick hash
alone. -/
def processSizeGroup (fs : FS) (size : Nat) (paths : List (List String)) :
    List Cluster :=
  (groupByHash (fun p => get_file_hash fs p true) paths).flatMap
    (fun qg =>
      if 1 < qg.2.length then
        if 10 * MB < size then
          (groupByHash (fun p => get_full_hash fs p) qg.2).foldr
            (fun fg acc =>
              if 1 < fg.2.length then mkCluster fg.1 size fg.2 :: acc
              else acc) []
        else [mkCluster qg.1 size qg.2]
      else [])

/-- The size buckets of Phase 2 (`potential_dups`): those with two or more
members. -/
def potentialDups (index : List (Nat × List (List String))) :
    List (Nat × List (List String)) :=
  index.filter (fun e => decide (1 < e.2.length))

/-- The processing order of Phase 2: buckets sorted by size, largest first. -/
def bucketOrder (a b : Nat × List (List String)) : Prop := b.1 ≤ a.1

instance : DecidableRel bucketOrder := fun a b => Nat.decLe b.1 a.1

instance : IsTotal (Nat × List (List String)) bucketOrder :=
  ⟨fun a b => Nat.le_total b.1 a.1⟩

instance : IsTrans (Nat × List (List String)) bucketOrder :=
  ⟨fun _ _ _ h1 h2 => Nat.le_trans h2 h1⟩

/-- Phase 2: process every size bucket with two or more members, largest size
first, collecting the duplicate clusters. -/
def phase2Clusters (fs : FS) (index : List (Nat × List (List String))) :
    List Cluster :=
  (List.insertionSort bucketOrder (potentialDups index)).flatMap
    (fun e => processSizeGroup fs e.1 e.2)

/-- `total_wasted_size`, accumulated cluster by cluster during Phase 2. -/
def total_wasted_size (cs : List Cluster) : Nat := (cs.map (·.wasted)).sum

/-- The final sort: `duplicate_clusters.sort(key=wasted, reverse=True)`. -/
def clusterOrder (a b : Cluster) : Prop := b.wasted ≤ a.wasted

instance : DecidableRel clusterOrder := fun a b => Nat.decLe b.wasted a.wasted

instance : IsTotal Cluster clusterOrder :=
  ⟨fun a b => Nat.le_total b.wasted a.wasted⟩

instance : IsTrans Cluster clusterOrder :=
  ⟨fun _ _ _ h1 h2 => Nat.le_trans h2 h1⟩

/-- `duplicate_clusters` sorted by wasted bytes, descending. -/
def sortClusters (cs : List Cluster) : List Cluster :=
  List.insertionSort clusterOrder cs

/-- The machine-readable JSON payload written by `scan_drive_duplicates.py`:
totals over every cluster found, but only the top 1000 clusters. -/
structure ScanJson where
  duplicate_groups : Nat
  total_wasted_space : Nat
  clusters : List Cluster
deriving DecidableEq

/-- The outcome of one run of `scan_drive_duplicates.py`. -/
structure ScanOut where
  indexed : Nat
  errors : Nat
  clusters : List Cluster
  json : ScanJson
deriving DecidableEq

/-- The report-mode pipeline: Phase 1 size index, Phase 2 clusters, the final
sort, and the JSON payload (`duplicate_groups = len(duplicate_clusters)`,
`total_wasted_space` as accumulated over all clusters, and
`clusters = duplicate_clusters[:1000]`). -/
def scanOut (fs : FS) : ScanOut :=
  let si := buildSizeIndex fs
  let raw := phase2Clusters fs si.index
  let sorted := sortClusters raw
  ⟨si.indexed, si.errors, sorted,
    ⟨sorted.length, total_wasted_size raw, sorted.take 1000⟩⟩

/-- `main` of `scan_drive_duplicates.py` as invoked: the script performs no
existence check on the volume root and has no abort path — by construction it
always completes and writes its report. -/
def scanRun (fs : FS) : Except String ScanOut :=
  Except.ok (scanOut fs)

end ScanDriveDuplicates

section Fixtures

/-- A path inside the protected archive scope. -/
def arcP (s : String) : List String := ARCHIVE_DIR ++ [s]

/-- A path on the volume outside the archive scope. -/
def extP (s : String) : List String := PEGASUS_ROOT ++ ["Other", s]

/-- The spec's reconciliation scenario: three archive files sharing name and
size with three external files; two pairs byte-identical, one differing in
content. -/
def fs3 : FS :=
  ⟨[⟨arcP "a1.mov", some 100, some [1]⟩,
    ⟨arcP "a2.mov", some 100, some [2]⟩,
    ⟨arcP "a3.mov", some 100, some [3]⟩,
    ⟨extP "a1.mov", some 100, some [1]⟩,
    ⟨extP "a2.mov", some 100, some [2]⟩,
    ⟨extP "a3.mov", some 100, some [4]⟩],
   [PEGASUS_ROOT, ARCHIVE_DIR]⟩

/-- A path on the volume used by the report-mode fixtures. -/
def sp (s : String) : List String := PEGASUS_ROOT ++ ["Data", s]

/-- A report-mode snapshot: one unreadable file stat-identical to two
byte-identical duplicates, plus a lone file of another size. -/
def fsScan : FS :=
  ⟨[⟨sp "u.bin", some 1024, none⟩,
    ⟨sp "v.bin", some 1024, some [9, 9]⟩,
    ⟨sp "w.bin", some 1024, some [9, 9]⟩,
    ⟨sp "x.bin", some 2048, some [7]⟩],
   [PEGASUS_ROOT]⟩

/-- A reconcile-mode snapshot whose only candidate pair has an unreadable
archive source. -/
def fsErr : FS :=
  ⟨[⟨arcP "aX.mov", some 50, none⟩,
    ⟨extP "aX.mov", some 50, some [6]⟩],
   [PEGASUS_ROOT, ARCHIVE_DIR]⟩

/-- A snapshot on which neither the volume root nor the archive exists. -/
def fsEmpty : FS := ⟨[], []⟩

/-- The invariant of the archive index: every stored record was produced by
the walk of the archive directory with a successful stat, under its own
filename as key. -/
def ArchInv (fs : FS) (k : String) (info : FileInfo) : Prop :=
  fileName info.path = k ∧ statOf fs info.path = some info.size ∧
    walkVisible ARCHIVE_DIR info.path = true

/-- The invariant of the external-match index: every stored record was
produced by the external walk (outside the archive) with a successful stat,
under its own filename as key. -/
def ExtInv (fs : FS) (k : String) (info : FileInfo) : Prop :=
  fileName info.path = k ∧ statOf fs info.path = some info.size ∧
    externalWalk info.path = true

/-- The confirmed pairs of one archive index entry, written without the
accumulating fold. -/
def dupsOfEntry (fs : FS) (extIdx : List (String × List FileInfo))
    (entry : String × List FileInfo) : List DupPair :=
  match lookupIndex extIdx entry.1 with
  | none => []
  | some extList => entry.2.flatMap (fun a => (processArchiveInfo fs extList a).1)

/-- The failed-read paths of one archive index entry. -/
def errsOfEntry (fs : FS) (extIdx : List (String × List FileInfo))
    (entry : String × List FileInfo) : List (List String) :=
  match lookupIndex extIdx entry.1 with
  | none => []
  | some extList => entry.2.flatMap (fun a => (processArchiveInfo fs extList a).2)

/-- Strictly inside the protected scope: below `ARCHIVE_DIR` but not the
scope's own path. -/
def strictlyInsideArchive (p : List String) : Prop :=
  ARCHIVE_DIR <+: p ∧ ARCHIVE_DIR ≠ p

/-- Strictly outside the protected scope: not under `ARCHIVE_DIR` at all. -/
def outsideArchive (p : List String) : Prop := ¬ ARCHIVE_DIR <+: p

instance (p : List String) : Decidable (strictlyInsideArchive p) := by
  unfold strictlyInsideArchive
  infer_instance

instance (p : List String) : Decidable (outsideArchive p) := by
  unfold outsideArchive
  infer_instance

/-- First path of the above-threshold fixture. -/
def bigPath1 : List String := PEGASUS_ROOT ++ ["Big", "b1.mov"]

/-- Second path of the above-threshold fixture. -/
def bigPath2 : List String := PEGASUS_ROOT ++ ["Big", "b2.mov"]

/-- One megabyte of identical bytes: the smallest readable stream on which
the quick hash's tail seek succeeds. -/
def bigBytes : List Nat := List.replicate MB 7

/-- The quick digest of the big fixture files: first megabyte, last megabyte,
printed stat size. -/
def bigDigest : List Nat := bigBytes ++ bigBytes ++ sizeDigits (10 * MB + 1)

/-- Two byte-identical files whose stat size exceeds the 10 MB threshold. -/
def fsBig : FS :=
  ⟨[⟨bigPath1, some (10 * MB + 1), some bigBytes⟩,
    ⟨bigPath2, some (10 * MB + 1), some bigBytes⟩],
   [PEGASUS_ROOT]⟩

end Fixtures

section IndexLemmas

/-- Key-indexed invariants survive `addToIndex`. -/
theorem addToIndex_invariant {κ ν : Type} [DecidableEq κ] {Q : κ → ν → Prop}
    {idx : List (κ × List ν)} {key : κ} {v : ν}
    (hidx : ∀ e ∈ idx, ∀ x ∈ e.2, Q e.1 x) (hv : Q key v) :
    ∀ e ∈ addToIndex idx key v, ∀ x ∈ e.2, Q e.1 x := by
  intro e he x hx
  unfold addToIndex at he
  by_cases hc : idx.any (fun e => e.1 = key) = true
  · rw [if_pos hc] at he
    obtain ⟨e₀, he₀, rfl⟩ := List.mem_map.1 he
    by_cases hk : e₀.1 = key
    · rw [if_pos hk] at hx ⊢
      rcases List.mem_append.1 hx with h | h
      · exact hidx e₀ he₀ x h
      · simp only [List.mem_singleton] at h
        subst h; simpa [hk] using hv
    · rw [if_neg hk] at hx ⊢
      exact hidx e₀ he₀ x hx
  · rw [if_neg hc] at he
    rcases List.mem_append.1 he with h | h
    · exact hidx e h x hx
    · simp only [List.mem_singleton] at h
      subst h
      simp only [List.mem_singleton] at hx
      subst hx; exact hv

/-- A successful lookup returns a list stored in the index under that key. -/
theorem lookupIndex_mem {κ ν : Type} [DecidableEq κ]
    {idx : List (κ × List ν)} {key : κ} {l : List ν}
    (h : lookupIndex idx key = some l) : (key, l) ∈ idx := by
  unfold lookupIndex at h
  cases hf : idx.find? (fun e => decide (e.1 = key)) with
  | none => rw [hf] at h; cases h
  | some e =>
    rw [hf] at h
    obtain rfl : e.2 = l := by cases h; rfl
    have hkey := List.find?_some hf
    have hmem := List.mem_of_find?_eq_some hf
    simp only [decide_eq_true_eq] at hkey
    rw [← hkey]
    exact hmem

/-- A successful stat means a file with that path is in the snapshot. -/
theorem statOf_some_mem {fs : FS} {p : List String} {n : Nat}
    (h : statOf fs p = some n) : ∃ f ∈ fs.files, f.path = p := by
  unfold statOf at h
  cases hf : fs.files.find? (fun f => f.path = p) with
  | none => rw [hf] at h; cases h
  | some f =>
    have hp := List.find?_some hf
    have hmem := List.mem_of_find?_eq_some hf
    simp only [decide_eq_true_eq] at hp
    exact ⟨f, hmem, hp⟩

/-- A successful read means a file with that path is in the snapshot. -/
theorem readContent_some_mem {fs : FS} {p : List String} {bs : List Nat}
    (h : readContent fs p = some bs) : ∃ f ∈ fs.files, f.path = p := by
  unfold readContent at h
  cases hf : fs.files.find? (fun f => f.path = p) with
  | none => rw [hf] at h; cases h
  | some f =>
    have hp := List.find?_some hf
    have hmem := List.mem_of_find?_eq_some hf
    simp only [decide_eq_true_eq] at hp
    exact ⟨f, hmem, hp⟩

/-- Every record of `build_archive_index` satisfies `ArchInv`. -/
theorem build_archive_index_invariant (fs : FS) :
    ∀ e ∈ build_archive_index fs, ∀ info ∈ e.2, ArchInv fs e.1 info := by
  unfold build_archive_index
  generalize hL : fs.files.filter (fun f => walkVisible ARCHIVE_DIR f.path) = L
  have hLmem : ∀ f ∈ L, walkVisible ARCHIVE_DIR f.path = true := by
    intro f hf
    rw [← hL] at hf
    exact (List.mem_filter.1 hf).2
  clear hL
  suffices h : ∀ (L : List FSFile) (idx : List (String × List FileInfo)),
      (∀ f ∈ L, walkVisible ARCHIVE_DIR f.path = true) →
      (∀ e ∈ idx, ∀ info ∈ e.2, ArchInv fs e.1 info) →
      ∀ e ∈ L.foldl (fun idx f =>
          match get_file_info fs f.path with
          | some info => addToIndex idx (fileName f.path) info
          | none => idx) idx, ∀ info ∈ e.2, ArchInv fs e.1 info by
    exact h L [] hLmem (by intro e he; cases he)
  intro L
  induction L with
  | nil => intro idx _ hidx; simpa using hidx
  | cons f L ih =>
    intro idx hvis hidx
    simp only [List.foldl_cons]
    apply ih _ (fun g hg => hvis g (List.mem_cons_of_mem f hg))
    cases hinfo : get_file_info fs f.path with
    | none => exact hidx
    | some info =>
      apply addToIndex_invariant hidx
      unfold get_file_info at hinfo
      cases hst : statOf fs f.path with
      | none => rw [hst] at hinfo; cases hinfo
      | some n =>
        rw [hst] at hinfo
        obtain rfl : (⟨f.path, n⟩ : FileInfo) = info := by cases hinfo; rfl
        exact ⟨rfl, hst, hvis f (List.mem_cons_self f L)⟩

/-- Every record of `find_external_matches` satisfies `ExtInv`. -/
theorem find_external_matches_invariant (fs : FS)
    (archIdx : List (String × List FileInfo)) :
    ∀ e ∈ find_external_matches fs archIdx, ∀ info ∈ e.2, ExtInv fs e.1 info := by
  unfold find_external_matches
  generalize hL : fs.files.filter (fun f => externalWalk f.path) = L
  have hLmem : ∀ f ∈ L, externalWalk f.path = true := by
    intro f hf
    rw [← hL] at hf
    exact (List.mem_filter.1 hf).2
  clear hL
  suffices h : ∀ (L : List FSFile) (idx : List (String × List FileInfo)),
      (∀ f ∈ L, externalWalk f.path = true) →
      (∀ e ∈ idx, ∀ info ∈ e.2, ExtInv fs e.1 info) →
      ∀ e ∈ L.foldl (fun idx f =>
          if archIdx.any (fun e => e.1 = fileName f.path) then
            match get_file_info fs f.path with
            | some info => addToIndex idx (fileName f.path) info
            | none => idx
          else idx) idx, ∀ info ∈ e.2, ExtInv fs e.1 info by
    exact h L [] hLmem (by intro e he; cases he)
  intro L
  induction L with
  | nil => intro idx _ hidx; simpa using hidx
  | cons f L ih =>
    intro idx hvis hidx
    simp only [List.foldl_cons]
    apply ih _ (fun g hg => hvis g (List.mem_cons_of_mem f hg))
    by_cases harch : archIdx.any (fun e => e.1 = fileName f.path) = true
    · rw [if_pos harch]
      cases hinfo : get_file_info fs f.path with
      | none => exact hidx
      | some info =>
        apply addToIndex_invariant hidx
        unfold get_file_info at hinfo
        cases hst : statOf fs f.path with
        | none => rw [hst] at hinfo; cases hinfo
        | some n =>
          rw [hst] at hinfo
          obtain rfl : (⟨f.path, n⟩ : FileInfo) = info := by cases hinfo; rfl
          exact ⟨rfl, hst, hvis f (List.mem_cons_self f L)⟩
    · rw [if_neg harch]
      exact hidx

end IndexLemmas

section FindDuplicatesLemmas

/-- The inner fold of `find_duplicates` just appends the per-record results. -/
theorem inner_foldl_eq (fs : FS) (extList : List FileInfo)
    (aList : List FileInfo) (acc : List DupPair × List (List String)) :
    aList.foldl (fun acc2 a =>
        let r := processArchiveInfo fs extList a
        (acc2.1 ++ r.1, acc2.2 ++ r.2)) acc =
      (acc.1 ++ aList.flatMap (fun a => (processArchiveInfo fs extList a).1),
       acc.2 ++ aList.flatMap (fun a => (processArchiveInfo fs extList a).2)) := by
  induction aList generalizing acc with
  | nil => simp
  | cons a aList ih =>
    simp only [List.foldl_cons, List.flatMap_cons, ih]
    simp [List.append_assoc]

/-- `find_duplicates` is the concatenation, over the archive index entries, of
the per-entry confirmed pairs and failed reads. -/
theorem find_duplicates_eq (fs : FS)
    (archIdx extIdx : List (String × List FileInfo)) :
    find_duplicates fs archIdx extIdx =
      (archIdx.flatMap (dupsOfEntry fs extIdx),
       archIdx.flatMap (errsOfEntry fs extIdx)) := by
  unfold find_duplicates
  suffices h : ∀ (L : List (String × List FileInfo))
      (acc : List DupPair × List (List String)),
      L.foldl (fun acc entry =>
        match lookupIndex extIdx entry.1 with
        | none => acc
        | some extList =>
          entry.2.foldl (fun acc2 a =>
            let r := processArchiveInfo fs extList a
            (acc2.1 ++ r.1, acc2.2 ++ r.2)) acc) acc =
        (acc.1 ++ L.flatMap (dupsOfEntry fs extIdx),
         acc.2 ++ L.flatMap (errsOfEntry fs extIdx)) by
    simpa using h archIdx ([], [])
  intro L
  induction L with
  | nil => intro acc; simp
  | cons entry L ih =>
    intro acc
    simp only [List.foldl_cons, List.flatMap_cons]
    cases hlk : lookupIndex extIdx entry.1 with
    | none =>
      simp only [dupsOfEntry, errsOfEntry, hlk]
      rw [ih]
      simp
    | some extList =>
      simp only [dupsOfEntry, errsOfEntry, hlk]
      rw [inner_foldl_eq, ih]
      simp [List.append_assoc]

/-- The `break` of the inner checksum loop: a returned keeper is one of the
size-matching externals and its full digest was computed equal to the archive
digest. -/
theorem scanExternals_found {fs : FS} {am : List Nat} {L : List FileInfo}
    {e : FileInfo} (h : (scanExternals fs am L).1 = some e) :
    e ∈ L ∧ compute_md5 fs e.path = some am := by
  induction L with
  | nil => simp [scanExternals] at h
  | cons e₀ rest ih =>
    cases hm : compute_md5 fs e₀.path with
    | none =>
      simp only [scanExternals, hm] at h
      obtain ⟨he, hmd⟩ := ih h
      exact ⟨List.mem_cons_of_mem e₀ he, hmd⟩
    | some em =>
      simp only [scanExternals, hm] at h
      by_cases heq : em = am
      · rw [if_pos heq] at h
        obtain rfl : e₀ = e := by cases h; rfl
        exact ⟨List.mem_cons_self e₀ rest, heq ▸ hm⟩
      · rw [if_neg heq] at h
        obtain ⟨he, hmd⟩ := ih h
        exact ⟨List.mem_cons_of_mem e₀ he, hmd⟩

/-- Every failed-read path reported by the inner checksum loop is a
size-matching external whose read really failed. -/
theorem scanExternals_errs {fs : FS} {am : List Nat} {L : List FileInfo}
    {p : List String} (h : p ∈ (scanExternals fs am L).2) :
    ∃ e ∈ L, e.path = p ∧ compute_md5 fs p = none := by
  induction L with
  | nil => simp [scanExternals] at h
  | cons e₀ rest ih =>
    cases hm : compute_md5 fs e₀.path with
    | none =>
      simp only [scanExternals, hm, List.mem_cons] at h
      rcases h with rfl | h
      · exact ⟨e₀, List.mem_cons_self e₀ rest, rfl, hm⟩
      · obtain ⟨e, he, hep, hmd⟩ := ih h
        exact ⟨e, List.mem_cons_of_mem e₀ he, hep, hmd⟩
    | some em =>
      simp only [scanExternals, hm] at h
      by_cases heq : em = am
      · rw [if_pos heq] at h
        simp at h
      · rw [if_neg heq] at h
        obtain ⟨e, he, hep, hmd⟩ := ih h
        exact ⟨e, List.mem_cons_of_mem e₀ he, hep, hmd⟩

/-- What a confirmed pair of `processArchiveInfo` consists of: the archive
record itself and a size-matching external, both with the same successfully
computed full digest. -/
theorem processArchiveInfo_mem {fs : FS} {extList : List FileInfo}
    {a : FileInfo} {d : DupPair}
    (h : d ∈ (processArchiveInfo fs extList a).1) :
    ∃ e ∈ extList, e.size = a.size ∧
      d = ⟨a.path, e.path, a.size, d.md5⟩ ∧
      compute_md5 fs a.path = some d.md5 ∧
      compute_md5 fs e.path = some d.md5 := by
  simp only [processArchiveInfo] at h
  split at h
  · simp at h
  · split at h
    · simp at h
    · next am hm =>
      split at h
      · next e hfound =>
        simp only [List.mem_singleton] at h
        subst h
        obtain ⟨hmem, hmd⟩ := scanExternals_found hfound
        have hfil := List.mem_filter.1 hmem
        simp only [decide_eq_true_eq] at hfil
        exact ⟨e, hfil.1, hfil.2, rfl, hm, hmd⟩
      · simp at h

/-- Every failed-read path of `processArchiveInfo` really failed to read, and
is either the archive record's path or a size-matching external's path. -/
theorem processArchiveInfo_errs {fs : FS} {extList : List FileInfo}
    {a : FileInfo} {p : List String}
    (h : p ∈ (processArchiveInfo fs extList a).2) :
    compute_md5 fs p = none ∧
      (p = a.path ∨ ∃ e ∈ extList, e.path = p) := by
  simp only [processArchiveInfo] at h
  split at h
  · simp at h
  · split at h
    · next hm =>
      simp only [List.mem_singleton] at h
      subst h
      exact ⟨hm, Or.inl rfl⟩
    · next am hm =>
      split at h
      · next e hfound =>
        obtain ⟨e', he, hep, hmd⟩ := scanExternals_errs h
        exact ⟨hmd, Or.inr ⟨e', (List.mem_filter.1 he).1, hep⟩⟩
      · obtain ⟨e', he, hep, hmd⟩ := scanExternals_errs h
        exact ⟨hmd, Or.inr ⟨e', (List.mem_filter.1 he).1, hep⟩⟩

/-- The full characterisation of a confirmed duplicate: it pairs an archive
index record with an external index record stored under the same filename key,
of equal size, and with equal, successfully computed, full-content digests. -/
theorem find_duplicates_mem {fs : FS}
    {archIdx extIdx : List (String × List FileInfo)} {d : DupPair}
    (h : d ∈ (find_duplicates fs archIdx extIdx).1) :
    ∃ k aList extList a e,
      (k, aList) ∈ archIdx ∧ lookupIndex extIdx k = some extList ∧
      a ∈ aList ∧ e ∈ extList ∧ e.size = a.size ∧
      d = ⟨a.path, e.path, a.size, d.md5⟩ ∧
      compute_md5 fs a.path = some d.md5 ∧
      compute_md5 fs e.path = some d.md5 := by
  rw [find_duplicates_eq] at h
  simp only [List.mem_flatMap] at h
  obtain ⟨entry, hentry, hd⟩ := h
  unfold dupsOfEntry at hd
  cases hlk : lookupIndex extIdx entry.1 with
  | none => rw [hlk] at hd; simp at hd
  | some extList =>
    rw [hlk] at hd
    simp only [List.mem_flatMap] at hd
    obtain ⟨a, ha, hpd⟩ := hd
    obtain ⟨e, he, hsz, hdeq, hma, hme⟩ := processArchiveInfo_mem hpd
    exact ⟨entry.1, entry.2, extList, a, e, hentry, hlk, ha, he, hsz, hdeq,
      hma, hme⟩

end FindDuplicatesLemmas

section DeleteLemmas

/-- A successfully computed digest implies the file is in the snapshot. -/
theorem compute_md5_some_mem {fs : FS} {p : List String} {dig : List Nat}
    (h : compute_md5 fs p = some dig) : ∃ f ∈ fs.files, f.path = p := by
  unfold compute_md5 at h
  cases hr : readContent fs p with
  | none => rw [hr] at h; cases h
  | some bs => exact readContent_some_mem hr

/-- Evaluating one dry-run iteration of the deletion loop. -/
theorem deleteStep_dry (st : DelOut) (d : DupPair) :
    deleteStep true st d =
      { st with
        deletionLog := st.deletionLog ++
          [log_deletion d.src d.keeper d.size d.md5 false],
        total_freed := st.total_freed + d.size,
        trace := st.trace ++
          [Event.logAppend (log_deletion d.src d.keeper d.size d.md5 false)] } := by
  simp [deleteStep]

/-- Evaluating one live iteration whose `os.remove` succeeds. -/
theorem deleteStep_live_onDisk {st : DelOut} {d : DupPair}
    (h : fileOnDisk st.files d.src = true) :
    deleteStep false st d =
      ⟨removeFile st.files d.src,
       st.deletionLog ++ [log_deletion d.src d.keeper d.size d.md5 true],
       st.total_freed + d.size,
       st.trace ++ [Event.removeCall d.src,
         Event.logAppend (log_deletion d.src d.keeper d.size d.md5 true)]⟩ := by
  simp [deleteStep, h]

/-- Evaluating one live iteration whose `os.remove` raises: the error goes to
the progress log only; no record is appended to the deletions log. -/
theorem deleteStep_live_missing {st : DelOut} {d : DupPair}
    (h : fileOnDisk st.files d.src = false) :
    deleteStep false st d =
      { st with trace := st.trace ++
          [Event.removeCall d.src, Event.progressError d.src] } := by
  simp [deleteStep, h]

/-- The remove calls recorded by one iteration of the deletion loop. -/
theorem deleteStep_removeCall {dry : Bool} {st : DelOut} {d : DupPair}
    {p : List String} :
    Event.removeCall p ∈ (deleteStep dry st d).trace ↔
      Event.removeCall p ∈ st.trace ∨ (dry = false ∧ p = d.src) := by
  cases dry with
  | true => rw [deleteStep_dry]; simp
  | false =>
    cases hod : fileOnDisk st.files d.src with
    | true => rw [deleteStep_live_onDisk hod]; simp
    | false => rw [deleteStep_live_missing hod]; simp

/-- The deletions-log records appended by one iteration of the deletion
loop: in dry-run mode every pair is logged; in live mode only a pair whose
`os.remove` succeeded. -/
theorem deleteStep_log {dry : Bool} {st : DelOut} {d : DupPair}
    {r : DeletionRecord} :
    r ∈ (deleteStep dry st d).deletionLog ↔
      r ∈ st.deletionLog ∨
        (r = log_deletion d.src d.keeper d.size d.md5 (!dry) ∧
          (dry = true ∨ fileOnDisk st.files d.src = true)) := by
  cases dry with
  | true => rw [deleteStep_dry]; simp
  | false =>
    cases hod : fileOnDisk st.files d.src with
    | true => rw [deleteStep_live_onDisk hod]; simp [hod]
    | false => rw [deleteStep_live_missing hod]; simp [hod]

/-- One iteration only appends to the trace. -/
theorem deleteStep_trace_grow (dry : Bool) (st : DelOut) (d : DupPair) :
    st.trace <+: (deleteStep dry st d).trace := by
  cases dry with
  | true =>
    rw [deleteStep_dry]
    exact List.prefix_append st.trace _
  | false =>
    cases hod : fileOnDisk st.files d.src with
    | true =>
      rw [deleteStep_live_onDisk hod]
      exact List.prefix_append st.trace _
    | false =>
      rw [deleteStep_live_missing hod]
      exact List.prefix_append st.trace _

/-- The whole deletion loop only appends to the trace. -/
theorem deleteStep_foldl_trace_grow (dry : Bool) (dups : List DupPair)
    (st : DelOut) :
    st.trace <+: (dups.foldl (deleteStep dry) st).trace := by
  induction dups generalizing st with
  | nil => exact List.prefix_rfl
  | cons d dups ih =>
    simp only [List.foldl_cons]
    exact (deleteStep_trace_grow dry st d).trans (ih (deleteStep dry st d))

/-- Every `os.remove` call of the deletion loop targets the source path of
one of the confirmed pairs handed to it. -/
theorem deleteStep_foldl_removeCall {dry : Bool} {dups : List DupPair}
    {st : DelOut} {p : List String}
    (h : Event.removeCall p ∈ (dups.foldl (deleteStep dry) st).trace) :
    Event.removeCall p ∈ st.trace ∨ ∃ d ∈ dups, d.src = p := by
  induction dups generalizing st with
  | nil => exact Or.inl h
  | cons d dups ih =>
    simp only [List.foldl_cons] at h
    rcases ih h with hst | ⟨d', hd', hp⟩
    · rcases deleteStep_removeCall.1 hst with hst' | ⟨_, rfl⟩
      · exact Or.inl hst'
      · exact Or.inr ⟨d, List.mem_cons_self d dups, rfl⟩
    · exact Or.inr ⟨d', List.mem_cons_of_mem d hd', hp⟩

/-- Every record of the deletions log comes from one of the confirmed pairs,
carries that pair's paths, size and digest, and — in live mode — was appended
immediately after the `os.remove` call on that pair's source. -/
theorem deleteStep_foldl_log {dry : Bool} {dups : List DupPair} {st : DelOut}
    {r : DeletionRecord}
    (h : r ∈ (dups.foldl (deleteStep dry) st).deletionLog) :
    r ∈ st.deletionLog ∨
      ∃ d ∈ dups, r = log_deletion d.src d.keeper d.size d.md5 (!dry) ∧
        (dry = false →
          [Event.removeCall d.src, Event.logAppend r] <:+:
            (dups.foldl (deleteStep dry) st).trace) := by
  induction dups generalizing st with
  | nil => exact Or.inl h
  | cons d dups ih =>
    simp only [List.foldl_cons] at h ⊢
    rcases ih h with hst | ⟨d', hd', hr, hblock⟩
    · rcases deleteStep_log.1 hst with hst' | ⟨hrec, hcase⟩
      · exact Or.inl hst'
      · refine Or.inr ⟨d, List.mem_cons_self d dups, hrec, ?_⟩
        intro hdry
        subst hdry
        rcases hcase with hcase | hod
        · cases hcase
        · obtain ⟨ext, hext⟩ :=
            deleteStep_foldl_trace_grow false dups (deleteStep false st d)
          refine ⟨st.trace, ext, ?_⟩
          rw [← hext, deleteStep_live_onDisk hod]
          subst hrec
          simp
    · exact Or.inr ⟨d', List.mem_cons_of_mem d hd', hr, hblock⟩

/-- Dry-run mode: the loop of `delete_duplicates` never touches the
filesystem, calls no remove, and logs one `WOULD DELETE` record per
confirmed pair, in order. -/
theorem deleteStep_foldl_dry (dups : List DupPair) (st : DelOut) :
    dups.foldl (deleteStep true) st =
      ⟨st.files,
       st.deletionLog ++
         dups.map (fun d => log_deletion d.src d.keeper d.size d.md5 false),
       st.total_freed + (dups.map (·.size)).sum,
       st.trace ++ dups.map (fun d =>
         Event.logAppend (log_deletion d.src d.keeper d.size d.md5 false))⟩ := by
  induction dups generalizing st with
  | nil => simp
  | cons d dups ih =>
    simp only [List.foldl_cons, List.map_cons, List.sum_cons]
    rw [deleteStep_dry, ih]
    simp [Nat.add_assoc]

/-- `delete_duplicates` in dry-run mode: no mutation, no remove calls, one
logged record per pair. -/
theorem delete_duplicates_dry (files : List FSFile) (dups : List DupPair) :
    delete_duplicates true files dups =
      ⟨files,
       dups.map (fun d => log_deletion d.src d.keeper d.size d.md5 false),
       (dups.map (·.size)).sum,
       dups.map (fun d =>
         Event.logAppend (log_deletion d.src d.keeper d.size d.md5 false))⟩ := by
  unfold delete_duplicates
  rw [deleteStep_foldl_dry]
  simp

/-- The three possible shapes of a reconciliation run: abort for a missing
volume root, abort for a missing archive directory, or the full pipeline. -/
theorem reconcileRun_cases (argv : List String) (fs : FS) :
    reconcileRun argv fs =
        ⟨some "ERROR: Pegasus drive not found", [], [], fs.files, [], []⟩ ∨
      reconcileRun argv fs =
        ⟨some "ERROR: Archive directory not found", [], [], fs.files, [], []⟩ ∨
      reconcileRun argv fs = reconcileCore argv fs := by
  unfold reconcileRun
  split
  · exact Or.inl rfl
  · split
    · exact Or.inr (Or.inl rfl)
    · exact Or.inr (Or.inr rfl)

/-- The confirmed pairs of the pipeline body. -/
theorem reconcileCore_dups (argv : List String) (fs : FS) :
    (reconcileCore argv fs).dups =
      (find_duplicates fs (build_archive_index fs)
        (find_external_matches fs (build_archive_index fs))).1 := rfl

/-- The failed-read paths of the pipeline body. -/
theorem reconcileCore_readErrors (argv : List String) (fs : FS) :
    (reconcileCore argv fs).readErrors =
      (find_duplicates fs (build_archive_index fs)
        (find_external_matches fs (build_archive_index fs))).2 := rfl

/-- The trace of the pipeline body. -/
theorem reconcileCore_trace (argv : List String) (fs : FS) :
    (reconcileCore argv fs).trace =
      (delete_duplicates (DRY_RUN argv) fs.files
        (reconcileCore argv fs).dups).trace := rfl

/-- The deletions log of the pipeline body. -/
theorem reconcileCore_deletionLog (argv : List String) (fs : FS) :
    (reconcileCore argv fs).deletionLog =
      (delete_duplicates (DRY_RUN argv) fs.files
        (reconcileCore argv fs).dups).deletionLog := rfl

/-- The final filesystem of the pipeline body. -/
theorem reconcileCore_finalFiles (argv : List String) (fs : FS) :
    (reconcileCore argv fs).finalFiles =
      (delete_duplicates (DRY_RUN argv) fs.files
        (reconcileCore argv fs).dups).files := rfl

/-- Every confirmed pair of a run pairs an archive-walk source with an
external-walk keeper of the same filename and size, both fully hashed to the
same digest. -/
theorem reconcileRun_dups_shape {argv : List String} {fs : FS} {d : DupPair}
    (h : d ∈ (reconcileRun argv fs).dups) :
    ∃ (a e : FileInfo),
      walkVisible ARCHIVE_DIR a.path = true ∧ externalWalk e.path = true ∧
      statOf fs a.path = some a.size ∧ statOf fs e.path = some e.size ∧
      fileName a.path = fileName e.path ∧ e.size = a.size ∧
      d = ⟨a.path, e.path, a.size, d.md5⟩ ∧
      compute_md5 fs a.path = some d.md5 ∧
      compute_md5 fs e.path = some d.md5 := by
  rcases reconcileRun_cases argv fs with hc | hc | hc <;> rw [hc] at h
  · cases h
  · cases h
  · rw [reconcileCore_dups] at h
    obtain ⟨k, aList, extList, a, e, hka, hlk, ha, he, hsz, hdeq, hma, hme⟩ :=
      find_duplicates_mem h
    have harch := build_archive_index_invariant fs (k, aList) hka a ha
    have hext := find_external_matches_invariant fs (build_archive_index fs)
      (k, extList) (lookupIndex_mem hlk) e he
    obtain ⟨hak, hastat, havis⟩ := harch
    obtain ⟨hek, hestat, hevis⟩ := hext
    exact ⟨a, e, havis, hevis, hastat, hestat, by rw [hak, hek], hsz, hdeq,
      hma, hme⟩

end DeleteLemmas

section WalkLemmas

/-- A path yielded by the walk of `dir` lies strictly below `dir`. -/
theorem walkVisible_strict {dir p : List String}
    (h : walkVisible dir p = true) : dir <+: p ∧ dir ≠ p := by
  unfold walkVisible at h
  simp only [Bool.and_eq_true, decide_eq_true_eq] at h
  obtain ⟨⟨hpre, hlen⟩, -⟩ := h
  refine ⟨List.isPrefixOf_iff_prefix.1 hpre, ?_⟩
  intro heq
  subst heq
  exact absurd hlen (lt_irrefl _)

/-- A path yielded by the external walk is not under the archive directory at
all, provided it is not the archive directory itself (on a real filesystem the
archive path names a directory, never a regular file). -/
theorem externalWalk_outside {p : List String}
    (h : externalWalk p = true) (hne : p ≠ ARCHIVE_DIR) :
    ¬ ARCHIVE_DIR <+: p := by
  unfold externalWalk at h
  simp only [Bool.and_eq_true, Bool.not_eq_true'] at h
  obtain ⟨-, hnp⟩ := h
  intro hpre
  obtain ⟨t, rfl⟩ := hpre
  have ht : t ≠ [] := by
    rintro rfl
    simp at hne
  rw [List.dropLast_append_of_ne_nil ARCHIVE_DIR ht] at hnp
  have hp : ARCHIVE_DIR.isPrefixOf (ARCHIVE_DIR ++ t.dropLast) = true :=
    List.isPrefixOf_iff_prefix.2 (List.prefix_append _ _)
  rw [hp] at hnp
  cases hnp

end WalkLemmas

section ScopePredicates

end ScopePredicates

section ScanLemmas

/-- Every path stored by a hash-grouping dictionary hashed successfully to its
group's key and came from the input list. -/
theorem groupByHash_invariant (hashOf : List String → Option (List Nat))
    (paths : List (List String)) :
    ∀ e ∈ groupByHash hashOf paths, ∀ p ∈ e.2,
      hashOf p = some e.1 ∧ p ∈ paths := by
  unfold groupByHash
  suffices h : ∀ (L : List (List String)) (sup : List (List String))
      (g : List (List Nat × List (List String))),
      (∀ p ∈ L, p ∈ sup) →
      (∀ e ∈ g, ∀ p ∈ e.2, hashOf p = some e.1 ∧ p ∈ sup) →
      ∀ e ∈ L.foldl (hashGroupStep hashOf) g, ∀ p ∈ e.2,
        hashOf p = some e.1 ∧ p ∈ sup by
    exact h paths paths [] (fun p hp => hp) (by intro e he; cases he)
  intro L
  induction L with
  | nil => intro sup g _ hg; simpa using hg
  | cons p L ih =>
    intro sup g hsup hg
    simp only [List.foldl_cons]
    apply ih _ _ (fun q hq => hsup q (List.mem_cons_of_mem p hq))
    cases hh : hashOf p with
    | none => simp only [hashGroupStep, hh]; exact hg
    | some hv =>
      simp only [hashGroupStep, hh]
      exact addToIndex_invariant
        (Q := fun k q => hashOf q = some k ∧ q ∈ sup) hg
        ⟨hh, hsup p (List.mem_cons_self p L)⟩

/-- Membership in a fold that keeps only groups of two or more, mapping each
kept group to a cluster. -/
theorem mem_foldr_filter {α β : Type} [DecidableEq β] {l : List α}
    {P : α → Prop} [DecidablePred P] {f : α → β} {c : β}
    (h : c ∈ l.foldr (fun x acc => if P x then f x :: acc else acc) []) :
    ∃ x ∈ l, P x ∧ c = f x := by
  induction l with
  | nil => cases h
  | cons x l ih =>
    simp only [List.foldr_cons] at h
    by_cases hp : P x
    · rw [if_pos hp] at h
      rcases List.mem_cons.1 h with rfl | h
      · exact ⟨x, List.mem_cons_self x l, hp, rfl⟩
      · obtain ⟨y, hy, hpy, hc⟩ := ih h
        exact ⟨y, List.mem_cons_of_mem x hy, hpy, hc⟩
    · rw [if_neg hp] at h
      obtain ⟨y, hy, hpy, hc⟩ := ih h
      exact ⟨y, List.mem_cons_of_mem x hy, hpy, hc⟩

/-- What every cluster produced for one size bucket satisfies: two or more
members drawn from the bucket, the recorded count and wasted bytes computed
from them, and the fingerprint discipline of the escalation rule — full
fingerprints above 10 MB, quick fingerprints otherwise. -/
theorem processSizeGroup_mem {fs : FS} {size : Nat}
    {paths : List (List String)} {c : Cluster}
    (h : c ∈ processSizeGroup fs size paths) :
    2 ≤ c.paths.length ∧ c.count = c.paths.length ∧ c.size = size ∧
      c.wasted = size * (c.paths.length - 1) ∧
      (∀ p ∈ c.paths, p ∈ paths) ∧
      ((10 * MB < size ∧ ∀ p ∈ c.paths, get_full_hash fs p = some c.hash) ∨
        (¬ 10 * MB < size ∧
          ∀ p ∈ c.paths, get_file_hash fs p true = some c.hash)) := by
  unfold processSizeGroup at h
  simp only [List.mem_flatMap] at h
  obtain ⟨qg, hqg, hc⟩ := h
  have hquick := groupByHash_invariant (fun p => get_file_hash fs p true) paths
  by_cases hlen : 1 < qg.2.length
  · rw [if_pos hlen] at hc
    by_cases hbig : 10 * MB < size
    · rw [if_pos hbig] at hc
      obtain ⟨fg, hfg, hflen, rfl⟩ := mem_foldr_filter hc
      have hfull := groupByHash_invariant (fun p => get_full_hash fs p) qg.2
      refine ⟨hflen, rfl, rfl, rfl, ?_, Or.inl ⟨hbig, ?_⟩⟩
      · intro p hp
        exact (hquick qg hqg p ((hfull fg hfg p hp).2)).2
      · intro p hp
        exact (hfull fg hfg p hp).1
    · rw [if_neg hbig] at hc
      simp only [List.mem_singleton] at hc
      subst hc
      refine ⟨hlen, rfl, rfl, rfl, ?_, Or.inr ⟨hbig, ?_⟩⟩
      · intro p hp
        exact (hquick qg hqg p hp).2
      · intro p hp
        exact (hquick qg hqg p hp).1
  · rw [if_neg hlen] at hc
    cases hc

/-- The invariant of the Phase-1 size index: every indexed path statted to
exactly its bucket's size, which is at least `MIN_SIZE`. -/
theorem buildSizeIndex_invariant (fs : FS) :
    ∀ e ∈ (buildSizeIndex fs).index, ∀ p ∈ e.2,
      statOf fs p = some e.1 ∧ MIN_SIZE ≤ e.1 := by
  unfold buildSizeIndex
  generalize hL : fs.files.filter (fun f => walkVisible PEGASUS_ROOT f.path) = L
  clear hL
  suffices h : ∀ (L : List FSFile) (st : SizeIndexOut),
      (∀ e ∈ st.index, ∀ p ∈ e.2, statOf fs p = some e.1 ∧ MIN_SIZE ≤ e.1) →
      ∀ e ∈ (L.foldl (sizeIndexStep fs) st).index, ∀ p ∈ e.2,
        statOf fs p = some e.1 ∧ MIN_SIZE ≤ e.1 by
    exact h L ⟨[], 0, 0, 0⟩ (by intro e he; cases he)
  intro L
  induction L with
  | nil => intro st hst; simpa using hst
  | cons f L ih =>
    intro st hst
    simp only [List.foldl_cons]
    apply ih
    cases hs : statOf fs f.path with
    | none => simp only [sizeIndexStep, hs]; exact hst
    | some sz =>
      by_cases hmin : MIN_SIZE ≤ sz
      · simp only [sizeIndexStep, hs, if_pos hmin]
        exact addToIndex_invariant
          (Q := fun k q => statOf fs q = some k ∧ MIN_SIZE ≤ k) hst ⟨hs, hmin⟩
      · simp only [sizeIndexStep, hs, if_neg hmin]
        exact hst

/-- The `errors` counter of Phase 1 counts exactly the walked files whose
stat raised — content-read failures never touch it. -/
theorem buildSizeIndex_errors (fs : FS) :
    (buildSizeIndex fs).errors =
      (fs.files.filter (fun f => walkVisible PEGASUS_ROOT f.path)).countP
        (fun f => (statOf fs f.path).isNone) := by
  unfold buildSizeIndex
  generalize fs.files.filter (fun f => walkVisible PEGASUS_ROOT f.path) = L
  suffices h : ∀ (L : List FSFile) (st : SizeIndexOut),
      (L.foldl (sizeIndexStep fs) st).errors =
        st.errors + L.countP (fun f => (statOf fs f.path).isNone) by
    rw [h L ⟨[], 0, 0, 0⟩]
    simp
  intro L
  induction L with
  | nil => intro st; simp
  | cons f L ih =>
    intro st
    simp only [List.foldl_cons]
    rw [List.countP_cons, ih]
    cases hs : statOf fs f.path with
    | none =>
      simp [sizeIndexStep, hs, Nat.add_comm, Nat.add_assoc, Nat.add_left_comm]
    | some sz =>
      by_cases hmin : MIN_SIZE ≤ sz
      · simp [sizeIndexStep, hs, if_pos hmin]
      · simp [sizeIndexStep, hs, if_neg hmin]

/-- Every cluster of the final sorted report comes from some size bucket of
the Phase-1 index with two or more members. -/
theorem scanOut_clusters_mem {fs : FS} {c : Cluster}
    (h : c ∈ (scanOut fs).clusters) :
    ∃ b ∈ (buildSizeIndex fs).index, 1 < b.2.length ∧
      c ∈ processSizeGroup fs b.1 b.2 := by
  have h' : c ∈ phase2Clusters fs (buildSizeIndex fs).index := by
    have hperm := List.perm_insertionSort clusterOrder
      (phase2Clusters fs (buildSizeIndex fs).index)
    exact hperm.mem_iff.1 h
  unfold phase2Clusters at h'
  simp only [List.mem_flatMap] at h'
  obtain ⟨b, hb, hc⟩ := h'
  have hbmem : b ∈ potentialDups (buildSizeIndex fs).index :=
    (List.perm_insertionSort bucketOrder _).mem_iff.1 hb
  have hfil := List.mem_filter.1 hbmem
  simp only [decide_eq_true_eq] at hfil
  exact ⟨b, hfil.1, hfil.2, hc⟩

/-- A successful fingerprint (quick or full) implies the byte stream was
successfully read. -/
theorem get_file_hash_some_read {fs : FS} {p : List String} {quick : Bool}
    {h : List Nat} (hh : get_file_hash fs p quick = some h) :
    (readContent fs p).isSome = true := by
  cases hs : statOf fs p with
  | none => simp [get_file_hash, hs] at hh
  | some sz =>
    simp only [get_file_hash, hs] at hh
    by_cases hq : quick = true ∧ 2 * MB < sz
    · rw [if_pos hq] at hh
      cases hr : readContent fs p with
      | none => simp [hr] at hh
      | some bs => simp [hr]
    · rw [if_neg hq] at hh
      cases hr : readContent fs p with
      | none => simp [hr] at hh
      | some bs => simp [hr]

/-- A successful full fingerprint implies the byte stream was read. -/
theorem get_full_hash_some_read {fs : FS} {p : List String} {h : List Nat}
    (hh : get_full_hash fs p = some h) : (readContent fs p).isSome = true := by
  unfold get_full_hash at hh
  cases hr : readContent fs p with
  | none => rw [hr] at hh; cases hh
  | some bs => simp [hr]

/-- A successful `compute_md5` implies the byte stream was read. -/
theorem compute_md5_some_read {fs : FS} {p : List String} {dig : List Nat}
    (h : compute_md5 fs p = some dig) : (readContent fs p).isSome = true := by
  unfold compute_md5 at h
  cases hr : readContent fs p with
  | none => rw [hr] at h; cases h
  | some bs => simp [hr]

end ScanLemmas

section Claims

/-- C1: in every reconciliation run, each confirmed (source, keeper) pair has
its source strictly inside the protected archive scope and its keeper strictly
outside it, and every path handed to the `os.remove` call site is such a
source — because sources come only from the walk of the archive directory and
keepers only from the walk that skips it.  (The hypothesis says no regular
file occupies the archive directory's own path, which on a real filesystem is
a directory.) -/
theorem C1_deletion_scope (argv : List String) (fs : FS)
    (hwf : ∀ f ∈ fs.files, f.path ≠ ARCHIVE_DIR) :
    (∀ d ∈ (reconcileRun argv fs).dups,
      strictlyInsideArchive d.src ∧ outsideArchive d.keeper) ∧
    (∀ p, Event.removeCall p ∈ (reconcileRun argv fs).trace →
      strictlyInsideArchive p) := by
  have hdups : ∀ d ∈ (reconcileRun argv fs).dups,
      strictlyInsideArchive d.src ∧ outsideArchive d.keeper := by
    intro d hd
    obtain ⟨a, e, havis, hevis, hastat, hestat, hname, hsz, hdeq, hma, hme⟩ :=
      reconcileRun_dups_shape hd
    have hsrc : d.src = a.path := by rw [hdeq]
    have hkeep : d.keeper = e.path := by rw [hdeq]
    constructor
    · rw [hsrc]
      exact walkVisible_strict havis
    · rw [hkeep]
      obtain ⟨f, hf, hfp⟩ := compute_md5_some_mem hme
      exact externalWalk_outside hevis (hfp ▸ hwf f hf)
  refine ⟨hdups, ?_⟩
  intro p hp
  rcases reconcileRun_cases argv fs with hc | hc | hc <;> rw [hc] at hp
  · simp at hp
  · simp at hp
  · rw [reconcileCore_trace] at hp
    unfold delete_duplicates at hp
    rcases deleteStep_foldl_removeCall hp with hinit | ⟨d, hd, rfl⟩
    · simp at hinit
    · exact (hdups d (by rw [hc]; exact hd)).1

/-- Witness for C1, on the three-pair scenario: the first confirmed pair's
source is strictly inside the scope, its keeper strictly outside, and the
second remove call's target is strictly inside. -/
theorem C1_witness :
    (strictlyInsideArchive (arcP "a1.mov") ∧ outsideArchive (extP "a1.mov")) ∧
      strictlyInsideArchive (arcP "a2.mov") := by
  have h := C1_deletion_scope [] fs3 (by decide)
  exact ⟨h.1 ⟨arcP "a1.mov", extP "a1.mov", 100, [1]⟩ (by decide),
    h.2 (arcP "a2.mov") (by decide)⟩

/-- C2: a (source, keeper) pair is confirmed only when the full-content
digests of both files were successfully computed and found equal — on top of
equal filenames and equal byte sizes — for every file size.  (`compute_md5`
is by definition the digest of the complete byte stream; the reconciliation
script contains no quick fingerprint at all, so no deletion decision ever
rests on one.) -/
theorem C2_full_fingerprint_required (argv : List String) (fs : FS) :
    ∀ d ∈ (reconcileRun argv fs).dups,
      ∃ dig, compute_md5 fs d.src = some dig ∧
        compute_md5 fs d.keeper = some dig ∧ d.md5 = dig ∧
        fileName d.src = fileName d.keeper ∧
        statOf fs d.src = some d.size ∧
        statOf fs d.keeper = some d.size := by
  intro d hd
  obtain ⟨a, e, havis, hevis, hastat, hestat, hname, hsz, hdeq, hma, hme⟩ :=
    reconcileRun_dups_shape hd
  have hsrc : d.src = a.path := by rw [hdeq]
  have hkeep : d.keeper = e.path := by rw [hdeq]
  have hsize : d.size = a.size := by rw [hdeq]
  refine ⟨d.md5, ?_, ?_, rfl, ?_, ?_, ?_⟩
  · rw [hsrc]; exact hma
  · rw [hkeep]; exact hme
  · rw [hsrc, hkeep, hname]
  · rw [hsrc, hsize]; exact hastat
  · rw [hkeep, hsize, ← hsz]; exact hestat

/-- Witness for C2: the first confirmed pair of the three-pair scenario. -/
theorem C2_witness :
    ∃ dig, compute_md5 fs3 (arcP "a1.mov") = some dig ∧
      compute_md5 fs3 (extP "a1.mov") = some dig ∧ ([1] : List Nat) = dig ∧
      fileName (arcP "a1.mov") = fileName (extP "a1.mov") ∧
      statOf fs3 (arcP "a1.mov") = some 100 ∧
      statOf fs3 (extP "a1.mov") = some 100 :=
  C2_full_fingerprint_required [] fs3
    ⟨arcP "a1.mov", extP "a1.mov", 100, [1]⟩ (by decide)

/-- C3 counterexample: on the spec's own three-pair scenario (two identical
pairs, one differing in content), a live run leaves exactly two audit-log
entries, not three — the mismatching pair yields no `REJECTED` entry at all —
and the full trace shows each `os.remove` call happening before, not after,
the append of its decision record. -/
theorem C3_counterexample :
    (reconcileRun [] fs3).deletionLog.length = 2 ∧
      (reconcileRun [] fs3).deletionLog.length ≠ 3 ∧
      (reconcileRun [] fs3).trace =
        [Event.removeCall (arcP "a1.mov"),
         Event.logAppend ⟨true, arcP "a1.mov", extP "a1.mov", 100, [1]⟩,
         Event.removeCall (arcP "a2.mov"),
         Event.logAppend ⟨true, arcP "a2.mov", extP "a2.mov", 100, [2]⟩] := by
  refine ⟨by decide, by decide, by decide⟩

/-- C3 amended: only confirmed pairs ever reach the deletions log; each
logged record carries a confirmed pair's paths, size and verified-equal full
digests, and in live mode the record is appended immediately *after* the
`os.remove` call on that source succeeds.  Pairs whose fingerprints mismatch
are dropped before the deletion phase and produce no entry, and a failing
remove is reported to the progress log only — so three candidate pairs of
which one mismatches leave exactly two audit entries. -/
theorem C3_amended_log_after_delete (argv : List String) (fs : FS) :
    ∀ r ∈ (reconcileRun argv fs).deletionLog,
      ∃ d ∈ (reconcileRun argv fs).dups,
        r = log_deletion d.src d.keeper d.size d.md5 (!DRY_RUN argv) ∧
        compute_md5 fs d.src = some d.md5 ∧
        compute_md5 fs d.keeper = some d.md5 ∧
        (DRY_RUN argv = false →
          [Event.removeCall d.src, Event.logAppend r] <:+:
            (reconcileRun argv fs).trace) := by
  intro r hr
  rcases reconcileRun_cases argv fs with hc | hc | hc <;> rw [hc] at hr ⊢
  · simp at hr
  · simp at hr
  · rw [reconcileCore_deletionLog] at hr
    unfold delete_duplicates at hr
    rcases deleteStep_foldl_log hr with hinit | ⟨d, hd, hrec, hblock⟩
    · simp at hinit
    · obtain ⟨a, e, -, -, -, -, -, -, hdeq, hma, hme⟩ :=
        reconcileRun_dups_shape (d := d) (by rw [hc]; exact hd)
      have hsrc : d.src = a.path := by rw [hdeq]
      have hkeep : d.keeper = e.path := by rw [hdeq]
      refine ⟨d, hd, hrec, ?_, ?_, ?_⟩
      · rw [hsrc]; exact hma
      · rw [hkeep]; exact hme
      · intro hdry
        rw [reconcileCore_trace]
        unfold delete_duplicates
        exact hblock hdry

/-- Witness for the amended C3: the first record of the live three-pair run. -/
theorem C3_witness :
    ∃ d ∈ (reconcileRun [] fs3).dups,
      (⟨true, arcP "a1.mov", extP "a1.mov", 100, [1]⟩ : DeletionRecord) =
          log_deletion d.src d.keeper d.size d.md5 (!DRY_RUN []) ∧
        compute_md5 fs3 d.src = some d.md5 ∧
        compute_md5 fs3 d.keeper = some d.md5 ∧
        (DRY_RUN [] = false →
          [Event.removeCall d.src,
           Event.logAppend ⟨true, arcP "a1.mov", extP "a1.mov", 100, [1]⟩] <:+:
            (reconcileRun [] fs3).trace) :=
  C3_amended_log_after_delete [] fs3
    ⟨true, arcP "a1.mov", extP "a1.mov", 100, [1]⟩ (by decide)

/-- C4 counterexample: a source that an earlier (or overlapping) run already
deleted — and therefore recorded as `DELETED` in that run's own log file — is
handed to `os.remove` again by a run whose candidate list still contains the
pair: the engine consults no audit-log state before the delete call, so the
deletion is re-attempted (it raises, and the failure goes to the progress log
only).  No reload of previous runs' logs exists anywhere in the script. -/
theorem C4_counterexample :
    (delete_duplicates false (removeFile fs3.files (arcP "a1.mov"))
        [⟨arcP "a1.mov", extP "a1.mov", 100, [1]⟩]).trace =
      [Event.removeCall (arcP "a1.mov"),
       Event.progressError (arcP "a1.mov")] := by
  decide

/-- C4 amended: the run never reloads previous runs' logs — each run's log
files are fresh, named after its own timestamp, and its in-memory deletions
log starts empty — and `delete_duplicates` attempts `os.remove` on every
confirmed source with no audit-log check.  What makes re-running safe in
practice is the filesystem itself: a path with no file on disk can appear in
no confirmed pair of a re-run, because confirmation requires both stat and a
successful full-content read. -/
theorem C4_amended_no_log_reload (argv : List String) (fs : FS)
    (p : List String) (hmiss : ∀ f ∈ fs.files, f.path ≠ p) :
    (∀ d ∈ (reconcileRun argv fs).dups, d.src ≠ p ∧ d.keeper ≠ p) ∧
      (∀ t1 t2 : String, t1 ≠ t2 → deletionLogName t1 ≠ deletionLogName t2) := by
  constructor
  · intro d hd
    obtain ⟨a, e, -, -, -, -, -, -, hdeq, hma, hme⟩ :=
      reconcileRun_dups_shape hd
    have hsrc : d.src = a.path := by rw [hdeq]
    have hkeep : d.keeper = e.path := by rw [hdeq]
    constructor
    · rw [hsrc]
      obtain ⟨f, hf, hfp⟩ := compute_md5_some_mem hma
      rw [← hfp]
      exact hmiss f hf
    · rw [hkeep]
      obtain ⟨f, hf, hfp⟩ := compute_md5_some_mem hme
      rw [← hfp]
      exact hmiss f hf
  · intro t1 t2 hne heq
    apply hne
    have hdata : t1.data ++ "_deletions.log".data =
        t2.data ++ "_deletions.log".data := by
      have := congrArg String.data heq
      simpa [deletionLogName, String.data_append] using this
    cases t1
    cases t2
    exact congrArg String.mk (List.append_cancel_right hdata)

/-- Witness for the amended C4: after the first run has deleted `a1.mov`, a
re-run on the resulting snapshot confirms only the remaining pair — the
already-deleted source is never re-decided — and distinct run timestamps
write distinct log files. -/
theorem C4_witness :
    ((⟨arcP "a2.mov", extP "a2.mov", 100, [2]⟩ : DupPair).src ≠
        arcP "a1.mov" ∧
      (⟨arcP "a2.mov", extP "a2.mov", 100, [2]⟩ : DupPair).keeper ≠
        arcP "a1.mov") ∧
      deletionLogName "20251011_120000" ≠ deletionLogName "20251012_090000" := by
  have h := C4_amended_no_log_reload []
    ⟨removeFile fs3.files (arcP "a1.mov"), fs3.dirs⟩ (arcP "a1.mov")
    (by decide)
  exact ⟨h.1 ⟨arcP "a2.mov", extP "a2.mov", 100, [2]⟩ (by decide),
    h.2 "20251011_120000" "20251012_090000" (by decide)⟩

/-- C5 counterexample: a run invoked with no mode flag is live — `DRY_RUN`
is false, the filesystem is mutated and `os.remove` is called — and no
interactive confirmation of any kind is requested by
`find_and_delete_duplicates.py` before deleting. -/
theorem C5_counterexample :
    DRY_RUN [] = false ∧
      Event.removeCall (arcP "a1.mov") ∈ (reconcileRun [] fs3).trace ∧
      (reconcileRun [] fs3).finalFiles ≠ fs3.files := by
  refine ⟨rfl, by decide, by decide⟩

/-- C5 amended: in `find_and_delete_duplicates.py` live deletion is the
default — dry-run holds only when `--dry-run` is passed — and no confirmation
token exists; with `--dry-run` the candidate evaluation is identical (the
confirmed pairs do not depend on the mode flag) and the filesystem is never
mutated.  The interactive `DELETE` confirmation lives in
`safe_delete_originals.py`, where a run without any mode flag aborts and
`--delete` proceeds only on the exact token. -/
theorem C5_amended_live_default (argv : List String) (fs : FS) (c : String) :
    (DRY_RUN argv = true →
      (reconcileRun argv fs).finalFiles = fs.files ∧
        ∀ p, Event.removeCall p ∉ (reconcileRun argv fs).trace) ∧
      (∀ argv', (reconcileRun argv' fs).dups = (reconcileRun argv fs).dups) ∧
      DRY_RUN [] = false ∧
      safeDeleteGate false false c = GateResult.abortNoMode ∧
      (c ≠ "DELETE" →
        safeDeleteGate false true c = GateResult.abortNotConfirmed) ∧
      safeDeleteGate false true "DELETE" = GateResult.proceedLive := by
  refine ⟨?_, ?_, rfl, rfl, ?_, ?_⟩
  · intro hdry
    rcases reconcileRun_cases argv fs with hc | hc | hc <;> rw [hc]
    · exact ⟨rfl, by simp⟩
    · exact ⟨rfl, by simp⟩
    · rw [reconcileCore_finalFiles, reconcileCore_trace, hdry,
        delete_duplicates_dry]
      refine ⟨rfl, ?_⟩
      intro p hp
      simp only [List.mem_map] at hp
      obtain ⟨d, -, hd⟩ := hp
      cases hd
  · intro argv'
    by_cases h1 : (!pathExists fs PEGASUS_ROOT) = true
    · simp [reconcileRun, h1]
    · by_cases h2 : (!pathExists fs ARCHIVE_DIR) = true
      · simp [reconcileRun, h1, h2]
      · simp [reconcileRun, h1, h2, reconcileCore_dups]
  · intro hc
    simp [safeDeleteGate, hc]
  · simp [safeDeleteGate]

/-- Witness for the amended C5: a `--dry-run` invocation of the three-pair
scenario leaves the filesystem untouched and calls no remove, and the
`safe_delete_originals.py` gate rejects a wrong token and a flagless run. -/
theorem C5_witness :
    ((reconcileRun ["--dry-run"] fs3).finalFiles = fs3.files ∧
      ∀ p, Event.removeCall p ∉ (reconcileRun ["--dry-run"] fs3).trace) ∧
      safeDeleteGate false true "nope" = GateResult.abortNotConfirmed ∧
      safeDeleteGate false false "DELETE" = GateResult.abortNoMode := by
  have h := C5_amended_live_default ["--dry-run"] fs3 "nope"
  exact ⟨h.1 (by decide), h.2.2.2.2.1 (by decide),
    (C5_amended_live_default ["--dry-run"] fs3 "DELETE").2.2.2.1⟩

/-- C6: in report mode, a group of equal-size files sharing a quick
fingerprint with size above the 10 MB high-stakes threshold has every cluster
member re-hashed with the full fingerprint, and clusters form only among
members whose full fingerprints are equal; at or below the threshold the
quick-fingerprint grouping is accepted as a cluster without full hashing. -/
theorem C6_escalation_rule (fs : FS) (size : Nat)
    (paths : List (List String)) :
    (10 * MB < size →
      ∀ c ∈ processSizeGroup fs size paths,
        2 ≤ c.paths.length ∧
          ∀ p ∈ c.paths, get_full_hash fs p = some c.hash) ∧
    (¬ 10 * MB < size →
      ∀ c ∈ processSizeGroup fs size paths,
        2 ≤ c.paths.length ∧
          ∀ p ∈ c.paths, get_file_hash fs p true = some c.hash) := by
  constructor
  · intro hbig c hc
    obtain ⟨hlen, -, -, -, -, hcase⟩ := processSizeGroup_mem hc
    rcases hcase with ⟨-, hfull⟩ | ⟨hnb, -⟩
    · exact ⟨hlen, hfull⟩
    · exact absurd hbig hnb
  · intro hnb c hc
    obtain ⟨hlen, -, -, -, -, hcase⟩ := processSizeGroup_mem hc
    rcases hcase with ⟨hbig, -⟩ | ⟨-, hq⟩
    · exact absurd hbig hnb
    · exact ⟨hlen, hq⟩

end Claims

section BigFixture

/-- Adding to an empty grouping dictionary. -/
theorem addToIndex_nil {κ ν : Type} [DecidableEq κ] (k : κ) (v : ν) :
    addToIndex ([] : List (κ × List ν)) k v = [(k, [v])] := by
  simp [addToIndex]

/-- Adding under the key of a singleton dictionary appends to its entry. -/
theorem addToIndex_same {κ ν : Type} [DecidableEq κ] (k : κ) (l : List ν)
    (v : ν) : addToIndex [(k, l)] k v = [(k, l ++ [v])] := by
  simp [addToIndex]

/-- One grouping step on a path whose fingerprint succeeds. -/
theorem hashGroupStep_some {hashOf : List String → Option (List Nat)}
    {p : List String} {hv : List Nat} (h : hashOf p = some hv)
    (g : List (List Nat × List (List String))) :
    hashGroupStep hashOf g p = addToIndex g hv p := by
  simp [hashGroupStep, h]

/-- Unfolding the quick digest of the big fixture. -/
theorem bigDigest_def :
    bigDigest = bigBytes ++ bigBytes ++ sizeDigits (10 * MB + 1) := rfl

/-- The length of the big byte stream, without evaluating it. -/
theorem bigBytes_length : bigBytes.length = MB := by
  unfold bigBytes
  exact List.length_replicate MB 7

/-- Taking the first megabyte of the big byte stream. -/
theorem bigBytes_take : List.take MB bigBytes = bigBytes := by
  unfold bigBytes
  rw [List.take_replicate, Nat.min_self]

/-- The quick hash of the first big file: head megabyte, tail megabyte and
printed size. -/
theorem quickHash_big1 :
    get_file_hash fsBig bigPath1 true = some bigDigest := by
  have hstat : statOf fsBig bigPath1 = some (10 * MB + 1) := rfl
  have hread : readContent fsBig bigPath1 = some bigBytes := rfl
  simp only [get_file_hash, hstat, hread]
  split
  · rw [bigBytes_length, if_neg (Nat.lt_irrefl MB), Nat.sub_self,
      bigBytes_take, List.drop_zero]
    rw [show md5Digest (bigBytes ++ bigBytes ++ sizeDigits (10 * MB + 1)) =
      bigBytes ++ bigBytes ++ sizeDigits (10 * MB + 1) from rfl]
    rw [← bigDigest_def]
  · next hcond =>
    exact absurd ⟨by trivial, by decide⟩ hcond

/-- The quick hash of the second big file. -/
theorem quickHash_big2 :
    get_file_hash fsBig bigPath2 true = some bigDigest := by
  have hstat : statOf fsBig bigPath2 = some (10 * MB + 1) := rfl
  have hread : readContent fsBig bigPath2 = some bigBytes := rfl
  simp only [get_file_hash, hstat, hread]
  split
  · rw [bigBytes_length, if_neg (Nat.lt_irrefl MB), Nat.sub_self,
      bigBytes_take, List.drop_zero]
    rw [show md5Digest (bigBytes ++ bigBytes ++ sizeDigits (10 * MB + 1)) =
      bigBytes ++ bigBytes ++ sizeDigits (10 * MB + 1) from rfl]
    rw [← bigDigest_def]
  · next hcond =>
    exact absurd ⟨by trivial, by decide⟩ hcond

attribute [irreducible] bigBytes bigDigest

/-- The quick-hash grouping of the big fixture: one group of two. -/
theorem groupByHash_big :
    groupByHash (fun p => get_file_hash fsBig p true) [bigPath1, bigPath2] =
      [(bigDigest, [bigPath1, bigPath2])] := by
  unfold groupByHash
  rw [List.foldl_cons, hashGroupStep_some quickHash_big1,
    List.foldl_cons, hashGroupStep_some quickHash_big2,
    List.foldl_nil, addToIndex_nil, addToIndex_same]
  rfl

/-- The full-hash grouping of the big fixture: the same group of two. -/
theorem groupByHash_big_full :
    groupByHash (fun p => get_full_hash fsBig p) [bigPath1, bigPath2] =
      [(bigBytes, [bigPath1, bigPath2])] := by
  have hf1 : get_full_hash fsBig bigPath1 = some bigBytes := rfl
  have hf2 : get_full_hash fsBig bigPath2 = some bigBytes := rfl
  unfold groupByHash
  rw [List.foldl_cons, hashGroupStep_some hf1,
    List.foldl_cons, hashGroupStep_some hf2,
    List.foldl_nil, addToIndex_nil, addToIndex_same]
  rfl

/-- The above-threshold bucket produces one cluster, formed from the full
fingerprints. -/
theorem processSizeGroup_big :
    processSizeGroup fsBig (10 * MB + 1) [bigPath1, bigPath2] =
      [mkCluster bigBytes (10 * MB + 1) [bigPath1, bigPath2]] := by
  unfold processSizeGroup
  rw [groupByHash_big, List.flatMap_cons, List.flatMap_nil, List.append_nil]
  rw [if_pos (by simp), if_pos (by decide), groupByHash_big_full,
    List.foldr_cons, List.foldr_nil]
  rw [if_pos (by simp)]

end BigFixture

section ClaimsTwo

/-- Witness for C6: on two byte-identical files whose stat size is one byte
over 10 MB, the produced cluster's members carry the full fingerprint; on the
1 KB bucket of the small fixture the quick fingerprint is accepted as the
cluster hash. -/
theorem C6_witness :
    (10 * MB < 10 * MB + 1 ∧
      get_full_hash fsBig bigPath1 = some bigBytes) ∧
      (¬ 10 * MB < 1024 ∧
        get_file_hash fsScan (sp "v.bin") true = some [9, 9]) := by
  constructor
  · have hbig : 10 * MB < 10 * MB + 1 := Nat.lt_succ_self _
    have hmem : mkCluster bigBytes (10 * MB + 1) [bigPath1, bigPath2] ∈
        processSizeGroup fsBig (10 * MB + 1) [bigPath1, bigPath2] := by
      rw [processSizeGroup_big]
      exact List.mem_singleton.2 rfl
    have h := (C6_escalation_rule fsBig (10 * MB + 1)
      [bigPath1, bigPath2]).1 hbig _ hmem
    refine ⟨hbig, ?_⟩
    exact h.2 bigPath1 (List.mem_cons_self _ _)
  · have hnb : ¬ 10 * MB < 1024 := by decide
    have hmem : (⟨[9, 9], 1024, [sp "v.bin", sp "w.bin"], 2, 1024⟩ : Cluster) ∈
        processSizeGroup fsScan 1024 [sp "u.bin", sp "v.bin", sp "w.bin"] := by
      decide
    have h := (C6_escalation_rule fsScan 1024
      [sp "u.bin", sp "v.bin", sp "w.bin"]).2 hnb _ hmem
    exact ⟨hnb, h.2 (sp "v.bin") (by decide)⟩

/-- The sorted cluster list of a scan, spelled out. -/
theorem scanOut_clusters_def (fs : FS) :
    (scanOut fs).clusters =
      sortClusters (phase2Clusters fs (buildSizeIndex fs).index) := rfl

/-- The error counter of a scan is Phase 1's error counter. -/
theorem scanOut_errors_def (fs : FS) :
    (scanOut fs).errors = (buildSizeIndex fs).errors := rfl

/-- The JSON totals and cluster list of a scan, spelled out. -/
theorem scanOut_json_def (fs : FS) :
    (scanOut fs).json =
      ⟨(scanOut fs).clusters.length,
       total_wasted_size (phase2Clusters fs (buildSizeIndex fs).index),
       (scanOut fs).clusters.take 1000⟩ := rfl

/-- C7: every cluster of a scan report is well-formed — at least two members,
the recorded count equal to the member count, wasted bytes equal to
size × (count − 1), and every member statting to exactly the cluster's size
(files of different sizes are never clustered together) — and the report's
cluster list is sorted by wasted bytes, descending. -/
theorem C7_cluster_wellformed (fs : FS) :
    (∀ c ∈ (scanOut fs).clusters,
      2 ≤ c.count ∧ c.count = c.paths.length ∧
        c.wasted = c.size * (c.count - 1) ∧
        ∀ p ∈ c.paths, statOf fs p = some c.size) ∧
      List.Sorted clusterOrder (scanOut fs).clusters := by
  constructor
  · intro c hc
    obtain ⟨b, hb, hblen, hcb⟩ := scanOut_clusters_mem hc
    obtain ⟨hlen, hcount, hsize, hwasted, hsub, -⟩ := processSizeGroup_mem hcb
    refine ⟨?_, hcount, ?_, ?_⟩
    · rw [hcount]; exact hlen
    · rw [hwasted, hcount, hsize]
    · intro p hp
      have hinv := buildSizeIndex_invariant fs b hb p (hsub p hp)
      rw [hsize]
      exact hinv.1
  · rw [scanOut_clusters_def]
    exact List.sorted_insertionSort clusterOrder _

/-- Witness for C7: the one cluster of the small report-mode fixture. -/
theorem C7_witness :
    2 ≤ (⟨[9, 9], 1024, [sp "v.bin", sp "w.bin"], 2, 1024⟩ : Cluster).count ∧
      (⟨[9, 9], 1024, [sp "v.bin", sp "w.bin"], 2, 1024⟩ : Cluster).count =
        (⟨[9, 9], 1024, [sp "v.bin", sp "w.bin"], 2, 1024⟩ : Cluster).paths.length ∧
      (⟨[9, 9], 1024, [sp "v.bin", sp "w.bin"], 2, 1024⟩ : Cluster).wasted =
        (⟨[9, 9], 1024, [sp "v.bin", sp "w.bin"], 2, 1024⟩ : Cluster).size *
          ((⟨[9, 9], 1024, [sp "v.bin", sp "w.bin"], 2, 1024⟩ : Cluster).count - 1) ∧
      ∀ p ∈ (⟨[9, 9], 1024, [sp "v.bin", sp "w.bin"], 2, 1024⟩ : Cluster).paths,
        statOf fsScan p =
          some (⟨[9, 9], 1024, [sp "v.bin", sp "w.bin"], 2, 1024⟩ : Cluster).size :=
  (C7_cluster_wellformed fsScan).1
    ⟨[9, 9], 1024, [sp "v.bin", sp "w.bin"], 2, 1024⟩ (by decide)

/-- C8 counterexample: in the report-mode fixture, `u.bin` stats fine but its
bytes cannot be read; Phase 2 silently drops it — the surviving cluster pairs
only the two readable files — and the run's `errors` counter stays 0: the
read failure is recorded nowhere in the run's output, contradicting "recorded
as an error, never dropped silently". -/
theorem C8_counterexample :
    readContent fsScan (sp "u.bin") = none ∧
      statOf fsScan (sp "u.bin") = some 1024 ∧
      (scanOut fsScan).clusters =
        [⟨[9, 9], 1024, [sp "v.bin", sp "w.bin"], 2, 1024⟩] ∧
      (scanOut fsScan).errors = 0 := by
  refine ⟨rfl, rfl, by decide, by decide⟩

/-- C8 amended: a file whose bytes cannot be read during fingerprinting is
excluded from every cluster and from the confirmed-duplicates pool in both
scripts; but only the reconcile script records the failure (each failed-read
path it reports really failed to read, sent to its progress log), while the
report script's `errors` counter counts exactly the Phase-1 stat failures —
Phase-2 fingerprint-read failures are dropped with no record in the run's
output. -/
theorem C8_amended_read_failures (argv : List String) (fs : FS) :
    (∀ c ∈ (scanOut fs).clusters, ∀ p ∈ c.paths,
      (readContent fs p).isSome = true) ∧
      (∀ d ∈ (reconcileRun argv fs).dups,
        (readContent fs d.src).isSome = true ∧
          (readContent fs d.keeper).isSome = true) ∧
      (∀ p ∈ (reconcileRun argv fs).readErrors, compute_md5 fs p = none) ∧
      (scanOut fs).errors =
        (fs.files.filter (fun f => walkVisible PEGASUS_ROOT f.path)).countP
          (fun f => (statOf fs f.path).isNone) := by
  refine ⟨?_, ?_, ?_, ?_⟩
  · intro c hc p hp
    obtain ⟨b, hb, -, hcb⟩ := scanOut_clusters_mem hc
    obtain ⟨-, -, -, -, -, hcase⟩ := processSizeGroup_mem hcb
    rcases hcase with ⟨-, hfull⟩ | ⟨-, hq⟩
    · exact get_full_hash_some_read (hfull p hp)
    · exact get_file_hash_some_read (hq p hp)
  · intro d hd
    obtain ⟨a, e, -, -, -, -, -, -, hdeq, hma, hme⟩ :=
      reconcileRun_dups_shape hd
    have hsrc : d.src = a.path := by rw [hdeq]
    have hkeep : d.keeper = e.path := by rw [hdeq]
    rw [hsrc, hkeep]
    exact ⟨compute_md5_some_read hma, compute_md5_some_read hme⟩
  · intro p hp
    rcases reconcileRun_cases argv fs with hc | hc | hc <;> rw [hc] at hp
    · simp at hp
    · simp at hp
    · rw [reconcileCore_readErrors, find_duplicates_eq] at hp
      simp only [List.mem_flatMap] at hp
      obtain ⟨entry, -, hpe⟩ := hp
      unfold errsOfEntry at hpe
      cases hlk : lookupIndex
          (find_external_matches fs (build_archive_index fs)) entry.1 with
      | none => rw [hlk] at hpe; simp at hpe
      | some extList =>
        rw [hlk] at hpe
        simp only [List.mem_flatMap] at hpe
        obtain ⟨a, -, hpa⟩ := hpe
        exact (processArchiveInfo_errs hpa).1
  · rw [scanOut_errors_def]
    exact buildSizeIndex_errors fs

/-- Witness for the amended C8: a clustered member of the report fixture is
readable, both halves of a confirmed pair of the reconcile fixture are
readable, and the failed-read path logged by the reconcile fixture with an
unreadable archive candidate really failed to read. -/
theorem C8_witness :
    (readContent fsScan (sp "v.bin")).isSome = true ∧
      ((readContent fs3 (arcP "a1.mov")).isSome = true ∧
        (readContent fs3 (extP "a1.mov")).isSome = true) ∧
      compute_md5 fsErr (arcP "aX.mov") = none := by
  refine ⟨?_, ?_, ?_⟩
  · exact (C8_amended_read_failures [] fsScan).1
      ⟨[9, 9], 1024, [sp "v.bin", sp "w.bin"], 2, 1024⟩ (by decide)
      (sp "v.bin") (by decide)
  · exact (C8_amended_read_failures [] fs3).2.1
      ⟨arcP "a1.mov", extP "a1.mov", 100, [1]⟩ (by decide)
  · exact (C8_amended_read_failures [] fsErr).2.2.1
      (arcP "aX.mov") (by decide)

/-- C9 counterexample: on a snapshot where the volume root does not exist,
report mode performs no existence check: the run completes normally and
produces an (empty) report instead of aborting before any work. -/
theorem C9_counterexample :
    pathExists fsEmpty PEGASUS_ROOT = false ∧
      scanRun fsEmpty = Except.ok ⟨0, 0, [], ⟨0, 0, []⟩⟩ := by
  exact ⟨rfl, rfl⟩

/-- C9 amended: only reconcile mode checks existence at startup — a missing
volume root or missing archive directory aborts the run before any indexing,
hashing or deciding, with nothing written to the deletion log and the
filesystem untouched; report mode has no abort path at all and always
completes with a report. -/
theorem C9_amended_reconcile_abort (argv : List String) (fs : FS)
    (h : pathExists fs PEGASUS_ROOT = false ∨
      pathExists fs ARCHIVE_DIR = false) :
    ((reconcileRun argv fs).aborted.isSome = true ∧
      (reconcileRun argv fs).deletionLog = [] ∧
      (reconcileRun argv fs).dups = [] ∧
      (reconcileRun argv fs).readErrors = [] ∧
      (reconcileRun argv fs).trace = [] ∧
      (reconcileRun argv fs).finalFiles = fs.files) ∧
      ∀ fs' : FS, scanRun fs' = Except.ok (scanOut fs') := by
  constructor
  · rcases h with h | h
    · simp [reconcileRun, h]
    · by_cases h1 : pathExists fs PEGASUS_ROOT = true
      · simp [reconcileRun, h1, h]
      · have h1' : pathExists fs PEGASUS_ROOT = false := by
          revert h1
          cases pathExists fs PEGASUS_ROOT <;> simp
        simp [reconcileRun, h1']
  · intro fs'
    rfl

/-- Witness for the amended C9: the empty snapshot misses the volume root;
the reconcile run aborts with an untouched filesystem and empty logs. -/
theorem C9_witness :
    ((reconcileRun [] fsEmpty).aborted.isSome = true ∧
      (reconcileRun [] fsEmpty).deletionLog = [] ∧
      (reconcileRun [] fsEmpty).dups = [] ∧
      (reconcileRun [] fsEmpty).readErrors = [] ∧
      (reconcileRun [] fsEmpty).trace = [] ∧
      (reconcileRun [] fsEmpty).finalFiles = fsEmpty.files) ∧
      ∀ fs' : FS, scanRun fs' = Except.ok (scanOut fs') :=
  C9_amended_reconcile_abort [] fsEmpty (Or.inl rfl)

/-- C10: the machine-readable JSON payload keeps only the first 1000 clusters
of the sorted list (so a scan with more than 1000 clusters is truncated to
exactly 1000, the largest by wasted bytes first), while its totals —
duplicate group count and total wasted space — are computed over every
cluster found. -/
theorem C10_json_truncation (fs : FS) :
    (scanOut fs).json.clusters = (scanOut fs).clusters.take 1000 ∧
      (scanOut fs).json.clusters.length =
        min 1000 (scanOut fs).clusters.length ∧
      (scanOut fs).json.duplicate_groups = (scanOut fs).clusters.length ∧
      (scanOut fs).json.total_wasted_space =
        total_wasted_size (scanOut fs).clusters := by
  refine ⟨rfl, ?_, rfl, ?_⟩
  · exact List.length_take 1000 (scanOut fs).clusters
  · rw [scanOut_json_def, scanOut_clusters_def]
    unfold sortClusters total_wasted_size
    have hperm := (List.perm_insertionSort clusterOrder
      (phase2Clusters fs (buildSizeIndex fs).index)).map (·.wasted)
    exact hperm.sum_eq.symm

end ClaimsTwo


end VideoDev
